import Mathlib

/-!
# Verification of the simulation driver `sim/sim_main.cpp`

The driver owns a 64-bit time counter `main_time` and two stimulus lines of the
design under test, `rstn_gen` (reset release) and `clk_gen` (clock).  Each loop
iteration applies the reset rule, the clock-rise rule and the clock-fall rule for
the current time, calls `top->eval()`, and increments the counter.  The loop runs
while `Verilated::gotFinish()` is false; afterwards `top->final()` is called and
the model is deleted.

The embedding keeps the driver state explicit, takes the design under test as a
parameter (its state type, its `eval`, `final` and completion flag), and records
every call made on the model in a trace.
-/

namespace SimMain

/-- Value of the macro `RESOLUTION` (line 4). -/
def RESOLUTION : Nat := 10

/-- Number of values of the type `vluint64_t` of `main_time`. -/
def UINT64_SIZE : Nat := 2 ^ 64

/-- Calls the driver makes on the model, in program order.  `eval` carries the
values of `rstn_gen`, `clk_gen` and `main_time` that are in force during the call. -/
inductive Event where
  | eval (rstn_gen clk_gen : Bool) (main_time : Nat)
  | final
  | delete
  deriving DecidableEq, Repr

/-- The design under test, as the driver sees it: `eval` advances the model reading
the two input ports (and the time through `sc_time_stamp`), `gotFinish` is the
completion flag `Verilated::gotFinish()`, `final` is the end-of-run hook.  The model
reads the input ports and the time but writes neither. -/
structure Dut (σ : Type) where
  eval : Bool → Bool → Nat → σ → σ
  gotFinish : σ → Bool
  final : σ → σ

/-- State of the driver: the two input ports of `top`, the global `main_time`,
the state of the model and the calls made on it so far. -/
structure Sim (σ : Type) where
  rstn_gen : Bool
  clk_gen : Bool
  main_time : Nat
  dut : σ
  trace : List Event

/-- Lines 24-26: `if (main_time > 6*RESOLUTION) top->rstn_gen = 1;`. -/
def resetRule (P t : Nat) (rstn : Bool) : Bool :=
  if t > 6 * P then true else rstn

/-- Lines 27-29: `if ((main_time % RESOLUTION) == 1) top->clk_gen = 1;`. -/
def riseRule (P t : Nat) (clk : Bool) : Bool :=
  if t % P = 1 then true else clk

/-- Lines 30-32:
`if ((main_time % RESOLUTION) == (RESOLUTION / 2 + 1)) top->clk_gen = 0;`. -/
def fallRule (P t : Nat) (clk : Bool) : Bool :=
  if t % P = P / 2 + 1 then false else clk

/-- Lines 24-34, one iteration of the loop with `RESOLUTION` equal to `P`: the three
rules in source order, then `top->eval()`, then `main_time++` on 64 bits.  The constant
expressions `6*RESOLUTION` and `RESOLUTION / 2 + 1` are computed exactly, as they are
in C for 10; `main_time` is the only quantity that wraps. -/
def loopBody {σ : Type} (P : Nat) (d : Dut σ) (s : Sim σ) : Sim σ :=
  let rstn := resetRule P s.main_time s.rstn_gen
  let clk := fallRule P s.main_time (riseRule P s.main_time s.clk_gen)
  { rstn_gen := rstn
    clk_gen := clk
    main_time := (s.main_time + 1) % UINT64_SIZE
    dut := d.eval rstn clk s.main_time s.dut
    trace := s.trace ++ [Event.eval rstn clk s.main_time] }

/-- Lines 18-21 and 6: the state in which the loop is entered. -/
def start {σ : Type} (init : σ) : Sim σ :=
  { rstn_gen := false, clk_gen := false, main_time := 0, dut := init, trace := [] }

/-- Line 23, `while (!Verilated::gotFinish()) { ... }`, bounded by `fuel` tests of the
condition; `none` when the fuel runs out before the flag is seen set. -/
def whileLoop {σ : Type} (P : Nat) (d : Dut σ) : Nat → Sim σ → Option (Sim σ)
  | 0, _ => none
  | fuel + 1, s =>
    if d.gotFinish s.dut then some s else whileLoop P d fuel (loopBody P d s)

/-- Lines 37-38: `top->final(); delete top;`. -/
def shutdown {σ : Type} (d : Dut σ) (s : Sim σ) : Sim σ :=
  { s with dut := d.final s.dut, trace := s.trace ++ [Event.final, Event.delete] }

/-- The function `main` (lines 13-41) with `RESOLUTION` equal to `P`. -/
def mainWith {σ : Type} (P : Nat) (d : Dut σ) (init : σ) (fuel : Nat) : Option (Sim σ) :=
  (whileLoop P d fuel (start init)).map (shutdown d)

/-- The function `main` (lines 13-41). -/
def main {σ : Type} (d : Dut σ) (init : σ) (fuel : Nat) : Option (Sim σ) :=
  mainWith RESOLUTION d init fuel

/-- State at the head of the loop after `n` completed iterations. -/
def afterIters {σ : Type} (P : Nat) (d : Dut σ) (init : σ) (n : Nat) : Sim σ :=
  (loopBody P d)^[n] (start init)

/-- The pair `(rstn_gen, clk_gen)` that rules 1-3 compute for time `t`, starting
from both lines at 0 before time 0. -/
def stimulus (P : Nat) : Nat → Bool × Bool
  | 0 => (resetRule P 0 false, fallRule P 0 (riseRule P 0 false))
  | t + 1 =>
    (resetRule P (t + 1) (stimulus P t).1,
      fallRule P (t + 1) (riseRule P (t + 1) (stimulus P t).2))

/-- The `k`-th call (from 0) made on the model, if it is an `eval`: the reset-release
value it sees. -/
def rstnSeen (tr : List Event) (k : Nat) : Option Bool :=
  match tr[k]? with
  | some (Event.eval r _ _) => some r
  | _ => none

/-- The `k`-th call (from 0) made on the model, if it is an `eval`: the clock value
it sees. -/
def clkSeen (tr : List Event) (k : Nat) : Option Bool :=
  match tr[k]? with
  | some (Event.eval _ c _) => some c
  | _ => none

/-- The `k`-th call (from 0) made on the model, if it is an `eval`: the value of
`main_time` during the call. -/
def timeSeen (tr : List Event) (k : Nat) : Option Nat :=
  match tr[k]? with
  | some (Event.eval _ _ t) => some t
  | _ => none

/-- A stub model that counts its evaluations and raises the completion flag once
the count has reached `K`. -/
def stubDut (K : Nat) : Dut Nat :=
  { eval := fun _ _ _ c => c + 1, gotFinish := fun c => decide (K ≤ c), final := fun c => c }

/-- A model that never raises the completion flag. -/
def idleDut : Dut Unit :=
  { eval := fun _ _ _ u => u, gotFinish := fun _ => false, final := fun u => u }

/-- Number of evaluations in a trace that see the reset-release line still false. -/
def resetHeldCalls (tr : List Event) : Nat :=
  (tr.filter (fun e => match e with
    | Event.eval false _ _ => true
    | _ => false)).length

/-- Number of the `len` calls from call `s` on that are evaluations seeing the
clock high. -/
def highCount (tr : List Event) (s len : Nat) : Nat :=
  Nat.count (fun i => clkSeen tr (s + i) = some true) len

/-- A model with a bit of state that it toggles on every evaluation that shows it the
clock high with reset released, and that raises the completion flag when it is
evaluated at a time of at least `T`. -/
def toggleDut (T : Nat) : Dut (Bool × Bool) :=
  { eval := fun rstn clk t b => (if rstn && clk then !b.1 else b.1, decide (T ≤ t))
    gotFinish := fun b => b.2
    final := fun b => b }

/-- Number of rising clock edges among the `len` evaluations from evaluation `s` on
(`1 ≤ s`): evaluations that see the clock true while the one before saw it false. -/
def risingCount (tr : List Event) (s len : Nat) : Nat :=
  Nat.count (fun i => clkSeen tr (s + i - 1) = some false ∧ clkSeen tr (s + i) = some true) len

/-- Number of falling clock edges among the `len` evaluations from evaluation `s` on
(`1 ≤ s`): evaluations that see the clock false while the one before saw it true. -/
def fallingCount (tr : List Event) (s len : Nat) : Nat :=
  Nat.count (fun i => clkSeen tr (s + i - 1) = some true ∧ clkSeen tr (s + i) = some false) len

/-- Number of rising clock edges of a trace that are seen by an evaluation for which
the reset-release line is still false. -/
def risingInReset (tr : List Event) : Nat :=
  Nat.count (fun t => 1 ≤ t ∧ clkSeen tr (t - 1) = some false ∧ clkSeen tr t = some true ∧
    rstnSeen tr t = some false) tr.length

/-! ## Shape of the loop state -/

theorem afterIters_zero {σ : Type} (P : Nat) (d : Dut σ) (init : σ) :
    afterIters P d init 0 = start init := rfl

theorem afterIters_succ {σ : Type} (P : Nat) (d : Dut σ) (init : σ) (n : Nat) :
    afterIters P d init (n + 1) = loopBody P d (afterIters P d init n) := by
  unfold afterIters
  exact Function.iterate_succ_apply' _ _ _

theorem main_time_afterIters {σ : Type} (P : Nat) (d : Dut σ) (init : σ) (n : Nat) :
    (afterIters P d init n).main_time = n % UINT64_SIZE := by
  induction n with
  | zero => simp [afterIters_zero, start, UINT64_SIZE]
  | succ n ih =>
    rw [afterIters_succ]
    show ((afterIters P d init n).main_time + 1) % UINT64_SIZE = _
    rw [ih]
    simp [Nat.add_mod]

theorem main_time_afterIters_lt {σ : Type} (P : Nat) (d : Dut σ) (init : σ) (n : Nat)
    (hn : n < UINT64_SIZE) : (afterIters P d init n).main_time = n := by
  rw [main_time_afterIters, Nat.mod_eq_of_lt hn]

theorem trace_afterIters_succ {σ : Type} (P : Nat) (d : Dut σ) (init : σ) (n : Nat) :
    (afterIters P d init (n + 1)).trace =
      (afterIters P d init n).trace ++
        [Event.eval (afterIters P d init (n + 1)).rstn_gen
          (afterIters P d init (n + 1)).clk_gen (n % UINT64_SIZE)] := by
  rw [← main_time_afterIters P d init n, afterIters_succ]
  rfl

theorem trace_length_afterIters {σ : Type} (P : Nat) (d : Dut σ) (init : σ) (n : Nat) :
    (afterIters P d init n).trace.length = n := by
  induction n with
  | zero => simp [afterIters_zero, start]
  | succ n ih => rw [trace_afterIters_succ]; simp [ih]

/-- Call number `k` of a run that has completed more than `k` iterations is an `eval`
that sees the lines left by iteration `k` and the counter value `k mod 2^64`. -/
theorem trace_getElem_afterIters {σ : Type} (P : Nat) (d : Dut σ) (init : σ) (n k : Nat)
    (hk : k < n) :
    (afterIters P d init n).trace[k]? =
      some (Event.eval (afterIters P d init (k + 1)).rstn_gen
        (afterIters P d init (k + 1)).clk_gen (k % UINT64_SIZE)) := by
  induction n with
  | zero => omega
  | succ n ih =>
    rw [trace_afterIters_succ]
    by_cases h : k < n
    · rw [List.getElem?_append_left (by rw [trace_length_afterIters]; exact h)]
      exact ih h
    · have hkn : k = n := by omega
      subst hkn
      rw [List.getElem?_append_right (by rw [trace_length_afterIters])]
      simp [trace_length_afterIters]

/-! ## The lines left by each iteration -/

theorem lines_afterIters_succ {σ : Type} (P : Nat) (d : Dut σ) (init : σ) (n : Nat) :
    (afterIters P d init (n + 1)).rstn_gen =
        resetRule P (n % UINT64_SIZE) (afterIters P d init n).rstn_gen ∧
      (afterIters P d init (n + 1)).clk_gen =
        fallRule P (n % UINT64_SIZE)
          (riseRule P (n % UINT64_SIZE) (afterIters P d init n).clk_gen) := by
  rw [← main_time_afterIters P d init n, afterIters_succ]
  exact ⟨rfl, rfl⟩

/-- Within the range of the counter, iteration `n` leaves on the lines the pair that
the three rules compute for time `n`. -/
theorem lines_eq_stimulus {σ : Type} (P : Nat) (d : Dut σ) (init : σ) (n : Nat)
    (hn : n < UINT64_SIZE) :
    ((afterIters P d init (n + 1)).rstn_gen, (afterIters P d init (n + 1)).clk_gen) =
      stimulus P n := by
  induction n with
  | zero =>
    obtain ⟨h1, h2⟩ := lines_afterIters_succ P d init 0
    rw [h1, h2]
    simp [afterIters_zero, start, stimulus, UINT64_SIZE]
  | succ n ih =>
    obtain ⟨h1, h2⟩ := lines_afterIters_succ P d init (n + 1)
    have ih2 := ih (by omega)
    rw [h1, h2, Nat.mod_eq_of_lt hn, stimulus, ← ih2]

/-- The reset-release line after `n + 1` iterations, for every `n`: the wrap of the
counter does not bring it back to 0. -/
theorem rstn_afterIters_succ {σ : Type} (d : Dut σ) (init : σ) (n : Nat) :
    (afterIters RESOLUTION d init (n + 1)).rstn_gen = decide (60 < n) := by
  induction n with
  | zero =>
    rw [(lines_afterIters_succ RESOLUTION d init 0).1]
    simp [afterIters_zero, start, resetRule, RESOLUTION, UINT64_SIZE]
  | succ n ih =>
    rw [(lines_afterIters_succ RESOLUTION d init (n + 1)).1, ih]
    unfold resetRule RESOLUTION UINT64_SIZE
    by_cases h : 60 < n
    · simp [h]; omega
    · have hlt : (n + 1) % 2 ^ 64 = n + 1 := Nat.mod_eq_of_lt (by omega)
      rw [hlt]
      by_cases h2 : n = 60
      · subst h2; simp
      · have h3 : ¬ (n + 1 > 6 * 10) := by omega
        have h4 : ¬ (60 < n + 1) := by omega
        simp [h, h3, h4]

theorem succ_mod_cases (k P : Nat) (hP : 0 < P) :
    (k % P + 1 < P ∧ (k + 1) % P = k % P + 1) ∨ (k % P + 1 = P ∧ (k + 1) % P = 0) := by
  have hlt : k % P < P := Nat.mod_lt k hP
  by_cases h : k % P + 1 < P
  · left
    refine ⟨h, ?_⟩
    have h1 : 1 % P = 1 := Nat.mod_eq_of_lt (by omega)
    rw [Nat.add_mod, h1]
    exact Nat.mod_eq_of_lt h
  · right
    have he : k % P + 1 = P := by omega
    refine ⟨he, ?_⟩
    by_cases hP1 : P = 1
    · subst hP1; exact Nat.mod_one _
    · rw [Nat.add_mod]
      have h1 : 1 % P = 1 := Nat.mod_eq_of_lt (by omega)
      rw [h1, he]
      exact Nat.mod_self P

/-- Closed form of the clock that the rules compute, for a period of at least 3. -/
theorem stimulus_clk (P : Nat) (hP : 3 ≤ P) (t : Nat) :
    (stimulus P t).2 = decide (1 ≤ t % P ∧ t % P ≤ P / 2) := by
  induction t with
  | zero =>
    have h2 : ¬ (0 = P / 2 + 1) := by omega
    simp [stimulus, riseRule, fallRule, h2]
  | succ t ih =>
    have hh : 2 * (P / 2) ≤ P ∧ P < 2 * (P / 2) + 2 := by omega
    rw [stimulus]
    simp only [ih, riseRule, fallRule]
    rcases succ_mod_cases t P (by omega) with ⟨h1, h2⟩ | ⟨h1, h2⟩
    · rw [h2]
      by_cases ha : t % P + 1 = 1
      · have hb : ¬ (t % P + 1 = P / 2 + 1) := by omega
        have hc : t % P + 1 ≤ P / 2 := by omega
        rw [if_neg hb, if_pos ha]
        exact (decide_eq_true ⟨by omega, hc⟩).symm
      · by_cases hb : t % P + 1 = P / 2 + 1
        · simp [ha, hb]
        · simp only [ha, hb, if_false]
          congr 1
          apply propext
          constructor <;> intro h <;> omega
    · rw [h2]
      have ha : ¬ (0 = P / 2 + 1) := by omega
      have hb : ¬ (t % P ≤ P / 2) := by omega
      simp [ha, hb]

/-- Closed form of the reset-release value that the rules compute. -/
theorem stimulus_rstn (P t : Nat) : (stimulus P t).1 = decide (6 * P < t) := by
  induction t with
  | zero => simp [stimulus, resetRule]
  | succ t ih =>
    rw [stimulus, ih]
    unfold resetRule
    by_cases h : 6 * P < t
    · have h2 : 6 * P < t + 1 := by omega
      simp [h, h2]
    · by_cases h2 : t + 1 > 6 * P
      · simp [h2]
      · simp [h, h2]

/-! ## What each evaluation sees -/

theorem rstnSeen_afterIters {σ : Type} (P : Nat) (d : Dut σ) (init : σ) (n k : Nat)
    (hk : k < n) :
    rstnSeen (afterIters P d init n).trace k = some (afterIters P d init (k + 1)).rstn_gen := by
  unfold rstnSeen
  rw [trace_getElem_afterIters P d init n k hk]

theorem clkSeen_afterIters {σ : Type} (P : Nat) (d : Dut σ) (init : σ) (n k : Nat)
    (hk : k < n) :
    clkSeen (afterIters P d init n).trace k = some (afterIters P d init (k + 1)).clk_gen := by
  unfold clkSeen
  rw [trace_getElem_afterIters P d init n k hk]

theorem timeSeen_afterIters {σ : Type} (P : Nat) (d : Dut σ) (init : σ) (n k : Nat)
    (hk : k < n) :
    timeSeen (afterIters P d init n).trace k = some (k % UINT64_SIZE) := by
  unfold timeSeen
  rw [trace_getElem_afterIters P d init n k hk]

theorem clk_gen_eq_stimulus {σ : Type} (P : Nat) (d : Dut σ) (init : σ) (k : Nat)
    (hk : k < UINT64_SIZE) : (afterIters P d init (k + 1)).clk_gen = (stimulus P k).2 := by
  rw [← lines_eq_stimulus P d init k hk]

theorem rstn_gen_eq_stimulus {σ : Type} (P : Nat) (d : Dut σ) (init : σ) (k : Nat)
    (hk : k < UINT64_SIZE) : (afterIters P d init (k + 1)).rstn_gen = (stimulus P k).1 := by
  rw [← lines_eq_stimulus P d init k hk]

/-- Within the range of the counter and for a period of at least 3, the clock seen
by evaluation `k` is high exactly when `1 ≤ k mod P ≤ P / 2`. -/
theorem clkSeen_closed {σ : Type} (P : Nat) (hP : 3 ≤ P) (d : Dut σ) (init : σ) (n k : Nat)
    (hk : k < n) (hn : n ≤ UINT64_SIZE) :
    clkSeen (afterIters P d init n).trace k = some (decide (1 ≤ k % P ∧ k % P ≤ P / 2)) := by
  rw [clkSeen_afterIters P d init n k hk, clk_gen_eq_stimulus P d init k (by omega),
    stimulus_clk P hP]

/-- The reset-release value seen by evaluation `k`, with `RESOLUTION` equal to 10. -/
theorem rstnSeen_closed {σ : Type} (d : Dut σ) (init : σ) (n k : Nat) (hk : k < n) :
    rstnSeen (afterIters RESOLUTION d init n).trace k = some (decide (60 < k)) := by
  rw [rstnSeen_afterIters RESOLUTION d init n k hk, rstn_afterIters_succ]

theorem dut_afterIters_succ {σ : Type} (P : Nat) (d : Dut σ) (init : σ) (n : Nat) :
    (afterIters P d init (n + 1)).dut =
      d.eval (afterIters P d init (n + 1)).rstn_gen (afterIters P d init (n + 1)).clk_gen
        (afterIters P d init n).main_time (afterIters P d init n).dut := by
  rw [afterIters_succ]
  rfl

/-- The calls made by `n` iterations are `n` evaluations, in order of time. -/
theorem trace_afterIters_eq_map {σ : Type} (P : Nat) (d : Dut σ) (init : σ) (n : Nat) :
    (afterIters P d init n).trace =
      (List.range n).map (fun k => Event.eval (afterIters P d init (k + 1)).rstn_gen
        (afterIters P d init (k + 1)).clk_gen (k % UINT64_SIZE)) := by
  induction n with
  | zero => simp [afterIters_zero, start]
  | succ n ih => rw [trace_afterIters_succ, ih, List.range_succ, List.map_append]; rfl

/-- The driver part of the state does not depend on the model. -/
theorem driver_independent {σ₁ σ₂ : Type} (P : Nat) (d₁ : Dut σ₁) (d₂ : Dut σ₂)
    (init₁ : σ₁) (init₂ : σ₂) (n : Nat) :
    (afterIters P d₁ init₁ n).rstn_gen = (afterIters P d₂ init₂ n).rstn_gen ∧
      (afterIters P d₁ init₁ n).clk_gen = (afterIters P d₂ init₂ n).clk_gen := by
  induction n with
  | zero => exact ⟨rfl, rfl⟩
  | succ n ih =>
    obtain ⟨a1, a2⟩ := lines_afterIters_succ P d₁ init₁ n
    obtain ⟨b1, b2⟩ := lines_afterIters_succ P d₂ init₂ n
    rw [a1, a2, b1, b2, ih.1, ih.2]
    exact ⟨rfl, rfl⟩

/-- The loop leaves through its only exit at the first loop head where the flag is
set, provided the fuel covers the tests of the condition up to that point. -/
theorem whileLoop_eq {σ : Type} (P : Nat) (d : Dut σ) (fuel : Nat) :
    ∀ (K : Nat) (s : Sim σ),
      (∀ j, j < K → d.gotFinish ((loopBody P d)^[j] s).dut = false) →
      d.gotFinish ((loopBody P d)^[K] s).dut = true →
      whileLoop P d fuel s = if K < fuel then some ((loopBody P d)^[K] s) else none := by
  induction fuel with
  | zero => intro K s _ _; simp [whileLoop]
  | succ fuel ih =>
    intro K s hrun hfin
    cases K with
    | zero =>
      have h0 : d.gotFinish s.dut = true := hfin
      simp [whileLoop, h0]
    | succ K =>
      have h0 : d.gotFinish s.dut = false := hrun 0 (by omega)
      have hrun2 : ∀ j, j < K → d.gotFinish ((loopBody P d)^[j] (loopBody P d s)).dut = false := by
        intro j hj
        have := hrun (j + 1) (by omega)
        rwa [Function.iterate_succ_apply] at this
      have hfin2 : d.gotFinish ((loopBody P d)^[K] (loopBody P d s)).dut = true := by
        rwa [Function.iterate_succ_apply] at hfin
      rw [whileLoop, h0, if_neg (by simp), ih K (loopBody P d s) hrun2 hfin2,
        Function.iterate_succ_apply]
      by_cases hK : K < fuel
      · rw [if_pos hK, if_pos (by omega)]
      · rw [if_neg hK, if_neg (by omega)]

/-! ## Counting evaluations -/

theorem resetHeldCalls_append_eval (tr : List Event) (r c : Bool) (t : Nat) :
    resetHeldCalls (tr ++ [Event.eval r c t]) = resetHeldCalls tr + if r = false then 1 else 0 := by
  unfold resetHeldCalls
  cases r <;> simp [List.filter_append]

/-- With `RESOLUTION` equal to 10, the evaluations that see reset still asserted are
the first 61 ones. -/
theorem resetHeldCalls_afterIters {σ : Type} (d : Dut σ) (init : σ) (n : Nat) :
    resetHeldCalls (afterIters RESOLUTION d init n).trace = min n 61 := by
  induction n with
  | zero => simp [afterIters_zero, start, resetHeldCalls]
  | succ n ih =>
    rw [trace_afterIters_succ, resetHeldCalls_append_eval, ih, rstn_afterIters_succ]
    by_cases h : 60 < n
    · rw [if_neg (by simp [h])]
      omega
    · rw [if_pos (by simp [h])]
      omega

theorem count_congr_lt (p q : Nat → Prop) [DecidablePred p] [DecidablePred q] (n : Nat)
    (h : ∀ k, k < n → (p k ↔ q k)) : Nat.count p n = Nat.count q n := by
  induction n with
  | zero => simp
  | succ n ih =>
    rw [Nat.count_succ, Nat.count_succ, ih (fun k hk => h k (by omega))]
    by_cases hp : p n
    · rw [if_pos hp, if_pos ((h n (by omega)).1 hp)]
    · rw [if_neg hp, if_neg (fun hq => hp ((h n (by omega)).2 hq))]

theorem count_between (h m : Nat) :
    Nat.count (fun t => 1 ≤ t ∧ t ≤ h) m = min (m - 1) h := by
  induction m with
  | zero => simp
  | succ m ih =>
    rw [Nat.count_succ, ih]
    by_cases hm : 1 ≤ m ∧ m ≤ h
    · rw [if_pos hm, Nat.min_def, Nat.min_def, if_pos (by omega), if_pos (by omega)]
      omega
    · rw [if_neg hm, Nat.min_def, Nat.min_def]
      split <;> split <;> omega

/-- A window of `P` consecutive times contains exactly `P / 2` times `t` with
`1 ≤ t mod P ≤ P / 2`. -/
theorem count_high_window (P : Nat) (hP : 1 ≤ P) (s : Nat) :
    Nat.count (fun i => 1 ≤ (s + i) % P ∧ (s + i) % P ≤ P / 2) P = P / 2 := by
  have hshift : Nat.count (fun k => 1 ≤ (k + P) % P ∧ (k + P) % P ≤ P / 2) s =
      Nat.count (fun t => 1 ≤ t % P ∧ t % P ≤ P / 2) s :=
    count_congr_lt _ _ s (fun k _ => by simp only [Nat.add_mod_right])
  have hbase : Nat.count (fun t => 1 ≤ t % P ∧ t % P ≤ P / 2) P = P / 2 := by
    rw [count_congr_lt (fun t => 1 ≤ t % P ∧ t % P ≤ P / 2) (fun t => 1 ≤ t ∧ t ≤ P / 2) P
      (fun k hk => by simp only [Nat.mod_eq_of_lt hk]), count_between, Nat.min_def]
    split <;> omega
  have h1 := Nat.count_add (fun t => 1 ≤ t % P ∧ t % P ≤ P / 2) s P
  have h2 := Nat.count_add' (fun t => 1 ≤ t % P ∧ t % P ≤ P / 2) s P
  rw [hshift, hbase] at h2
  omega

/-- Within the range of the counter and for a period of at least 3, every window of
`P` consecutive evaluations of a run has exactly `P / 2` that see the clock high. -/
theorem highCount_afterIters {σ : Type} (P : Nat) (hP : 3 ≤ P) (d : Dut σ) (init : σ)
    (n s : Nat) (hs : s + P ≤ n) (hn : n ≤ UINT64_SIZE) :
    highCount (afterIters P d init n).trace s P = P / 2 := by
  unfold highCount
  rw [count_congr_lt _ (fun i => 1 ≤ (s + i) % P ∧ (s + i) % P ≤ P / 2) P (fun k hk => by
    rw [clkSeen_closed P hP d init n (s + k) (by omega) hn]
    simp)]
  exact count_high_window P (by omega) s

/-! ## Counting edges -/

theorem count_eq_single (c m : Nat) :
    Nat.count (fun t => t = c) m = if c < m then 1 else 0 := by
  induction m with
  | zero => simp
  | succ m ih =>
    rw [Nat.count_succ, ih]
    by_cases h1 : c < m
    · rw [if_pos h1, if_neg (by omega), if_pos (by omega)]
    · by_cases h2 : m = c
      · rw [if_neg h1, if_pos h2, if_pos (by omega)]
      · rw [if_neg h1, if_neg h2, if_neg (by omega)]

/-- A window of `P` consecutive times contains exactly one time of each residue. -/
theorem count_residue_window (P c : Nat) (hc : c < P) (s : Nat) :
    Nat.count (fun i => (s + i) % P = c) P = 1 := by
  have hshift : Nat.count (fun k => (k + P) % P = c) s = Nat.count (fun t => t % P = c) s :=
    count_congr_lt _ _ s (fun k _ => by simp only [Nat.add_mod_right])
  have hbase : Nat.count (fun t => t % P = c) P = 1 := by
    rw [count_congr_lt (fun t => t % P = c) (fun t => t = c) P
      (fun k hk => by simp only [Nat.mod_eq_of_lt hk]), count_eq_single, if_pos hc]
  have h1 := Nat.count_add (fun t => t % P = c) s P
  have h2 := Nat.count_add' (fun t => t % P = c) s P
  rw [hshift, hbase] at h2
  omega

/-- For a period of at least 3, the closed form of the clock rises exactly at the times
congruent to 1 and falls exactly at the times congruent to `P / 2 + 1`. -/
theorem closed_form_edges (P : Nat) (hP : 3 ≤ P) (u : Nat) :
    ((¬ (1 ≤ u % P ∧ u % P ≤ P / 2) ∧ (1 ≤ (u + 1) % P ∧ (u + 1) % P ≤ P / 2)) ↔
      (u + 1) % P = 1) ∧
    (((1 ≤ u % P ∧ u % P ≤ P / 2) ∧ ¬ (1 ≤ (u + 1) % P ∧ (u + 1) % P ≤ P / 2)) ↔
      (u + 1) % P = P / 2 + 1) := by
  have hh : 2 * (P / 2) ≤ P ∧ P < 2 * (P / 2) + 2 := by omega
  rcases succ_mod_cases u P (by omega) with ⟨h1, h2⟩ | ⟨h1, h2⟩
  · rw [h2]
    constructor <;> constructor <;> intro h <;> omega
  · rw [h2]
    constructor <;> constructor <;> intro h <;> omega

/-- Edges seen by the evaluations of a run, within the range of the counter and for a
period of at least 3. -/
theorem edges_seen {σ : Type} (P : Nat) (hP : 3 ≤ P) (d : Dut σ) (init : σ) (n t : Nat)
    (h1 : 1 ≤ t) (ht : t < n) (hn : n ≤ UINT64_SIZE) :
    ((clkSeen (afterIters P d init n).trace (t - 1) = some false ∧
        clkSeen (afterIters P d init n).trace t = some true) ↔ t % P = 1) ∧
    ((clkSeen (afterIters P d init n).trace (t - 1) = some true ∧
        clkSeen (afterIters P d init n).trace t = some false) ↔ t % P = P / 2 + 1) := by
  obtain ⟨u, rfl⟩ : ∃ u, t = u + 1 := ⟨t - 1, by omega⟩
  rw [Nat.add_sub_cancel, clkSeen_closed P hP d init n (u + 1) ht hn,
    clkSeen_closed P hP d init n u (by omega) hn]
  simp only [Option.some.injEq, decide_eq_true_eq, decide_eq_false_iff_not]
  exact closed_form_edges P hP u

theorem count_rising_under_reset (n : Nat) (hn : 61 ≤ n) :
    Nat.count (fun t => t % 10 = 1 ∧ t ≤ 60) n = 6 := by
  obtain ⟨m, rfl⟩ : ∃ m, n = 61 + m := ⟨n - 61, by omega⟩
  have htail : Nat.count (fun k => (61 + k) % 10 = 1 ∧ 61 + k ≤ 60) m = 0 := by
    rw [count_congr_lt _ (fun _ => False) m (fun k _ => by
      constructor
      · intro h; omega
      · intro h; exact h.elim)]
    exact Nat.count_false m
  have hhead : Nat.count (fun t => t % 10 = 1 ∧ t ≤ 60) 61 = 6 := by decide
  rw [Nat.count_add, htail, hhead]

/-! ## Claims -/

/-- C1: with `RESOLUTION = 10` and both lines and the time at 0 on entry, the evaluation
for time `t` sees the reset-release line false when `t ≤ 60` and true when `t > 60`
(the counter reads `t` during that call as long as `t` fits its 64 bits); the value
differs between two consecutive evaluations only between `t = 60` (false) and
`t = 61` (true), and every evaluation after one that saw it true sees it true. -/
theorem reset_release_after_60 {σ : Type} (d : Dut σ) (init : σ) (n t : Nat) (ht : t < n) :
    (t ≤ 60 → rstnSeen (afterIters RESOLUTION d init n).trace t = some false) ∧
    (60 < t → rstnSeen (afterIters RESOLUTION d init n).trace t = some true) ∧
    (t < UINT64_SIZE → timeSeen (afterIters RESOLUTION d init n).trace t = some t) ∧
    (t + 1 < n →
      (rstnSeen (afterIters RESOLUTION d init n).trace t ≠
          rstnSeen (afterIters RESOLUTION d init n).trace (t + 1) ↔ t + 1 = 61)) ∧
    (rstnSeen (afterIters RESOLUTION d init n).trace t = some true →
      ∀ u, t ≤ u → u < n → rstnSeen (afterIters RESOLUTION d init n).trace u = some true) := by
  have h := rstnSeen_closed d init n t ht
  refine ⟨?_, ?_, ?_, ?_, ?_⟩
  · intro h60
    rw [h]
    simp only [Option.some.injEq, decide_eq_false_iff_not]
    omega
  · intro h60
    rw [h]
    simp only [Option.some.injEq, decide_eq_true_eq]
    exact h60
  · intro hlt
    rw [timeSeen_afterIters RESOLUTION d init n t ht, Nat.mod_eq_of_lt hlt]
  · intro h1
    rw [h, rstnSeen_closed d init n (t + 1) h1]
    by_cases ha : 60 < t
    · have hb : 60 < t + 1 := by omega
      simp only [ha, hb, decide_True, ne_eq, not_true_eq_false, false_iff]
      omega
    · by_cases hb : 60 < t + 1
      · simp only [ha, hb, decide_True, decide_False, ne_eq, Option.some.injEq,
          Bool.false_eq_true, not_false_eq_true, true_iff]
        omega
      · simp only [ha, hb, decide_False, ne_eq, not_true_eq_false, false_iff]
        omega
  · intro htrue u htu hu
    rw [h] at htrue
    simp only [Option.some.injEq, decide_eq_true_eq] at htrue
    rw [rstnSeen_closed d init n u hu]
    simp only [Option.some.injEq, decide_eq_true_eq]
    omega

/-- Witness of C1: a run of 100 iterations against a model that never finishes,
at the release time 61 and the time before it. -/
theorem reset_release_after_60_witness :
    60 < 100 ∧
    rstnSeen (afterIters RESOLUTION idleDut () 100).trace 60 = some false ∧
    rstnSeen (afterIters RESOLUTION idleDut () 100).trace 61 = some true ∧
    timeSeen (afterIters RESOLUTION idleDut () 100).trace 60 = some 60 :=
  ⟨by decide,
    (reset_release_after_60 idleDut () 100 60 (by decide)).1 (by decide),
    (reset_release_after_60 idleDut () 100 61 (by decide)).2.1 (by decide),
    (reset_release_after_60 idleDut () 100 60 (by decide)).2.2.1 (by decide)⟩

/-- C2: with `RESOLUTION = 10`, for every time `t` of the 64-bit counter reached by a
run, the clock seen by the evaluation for `t` is true when `t mod 10 = 1`, false when
`t mod 10 = 10 / 2 + 1 = 6`, and otherwise it is the value seen by the evaluation for
`t - 1`, or the initial value false when `t = 0`. -/
theorem clock_recurrence {σ : Type} (d : Dut σ) (init : σ) (n t : Nat) (ht : t < n)
    (hn : n ≤ UINT64_SIZE) :
    ∃ c, clkSeen (afterIters RESOLUTION d init n).trace t = some c ∧
      (t % 10 = 1 → c = true) ∧
      (t % 10 = RESOLUTION / 2 + 1 → c = false) ∧
      (RESOLUTION / 2 + 1 = 6) ∧
      (t % 10 ≠ 1 → t % 10 ≠ 6 →
        (t = 0 → c = false) ∧
        (0 < t → clkSeen (afterIters RESOLUTION d init n).trace (t - 1) = some c)) := by
  refine ⟨(stimulus RESOLUTION t).2, ?_, ?_, ?_, by decide, ?_⟩
  · rw [clkSeen_afterIters RESOLUTION d init n t ht,
      clk_gen_eq_stimulus RESOLUTION d init t (by omega)]
  · intro h1
    cases t with
    | zero => omega
    | succ t => simp [stimulus, riseRule, fallRule, RESOLUTION, h1]
  · intro h6
    cases t with
    | zero => simp [RESOLUTION] at h6
    | succ t =>
      have h6r : (t + 1) % RESOLUTION = RESOLUTION / 2 + 1 := h6
      simp [stimulus, fallRule, h6r]
  · intro h1 h6
    constructor
    · intro h0
      subst h0
      simp [stimulus, riseRule, fallRule, RESOLUTION]
    · intro hpos
      obtain ⟨u, rfl⟩ : ∃ u, t = u + 1 := ⟨t - 1, by omega⟩
      rw [Nat.add_sub_cancel, clkSeen_afterIters RESOLUTION d init n u (by omega),
        clk_gen_eq_stimulus RESOLUTION d init u (by omega)]
      simp [stimulus, riseRule, fallRule, RESOLUTION, h1, h6]

/-- Witness of C2: time 7 of a run of 20 iterations holds the value of time 6. -/
theorem clock_recurrence_witness :
    7 < 20 ∧ 20 ≤ UINT64_SIZE ∧
    ∃ c, clkSeen (afterIters RESOLUTION idleDut () 20).trace 7 = some c ∧
      (7 % 10 = 1 → c = true) ∧
      (7 % 10 = RESOLUTION / 2 + 1 → c = false) ∧
      (RESOLUTION / 2 + 1 = 6) ∧
      (7 % 10 ≠ 1 → 7 % 10 ≠ 6 →
        (7 = 0 → c = false) ∧
        (0 < 7 → clkSeen (afterIters RESOLUTION idleDut () 20).trace (7 - 1) = some c)) :=
  ⟨by decide, by decide, clock_recurrence idleDut () 20 7 (by decide) (by decide)⟩

/-- C3: with `RESOLUTION = 10`, for every time `t ≥ 1` of the 64-bit counter reached by
a run, the clock seen goes from false at `t - 1` to true at `t` exactly when
`t mod 10 = 1`, and from true at `t - 1` to false at `t` exactly when `t mod 10 = 6`. -/
theorem clock_edges {σ : Type} (d : Dut σ) (init : σ) (n t : Nat) (h1 : 1 ≤ t) (ht : t < n)
    (hn : n ≤ UINT64_SIZE) :
    ((clkSeen (afterIters RESOLUTION d init n).trace (t - 1) = some false ∧
        clkSeen (afterIters RESOLUTION d init n).trace t = some true) ↔ t % 10 = 1) ∧
    ((clkSeen (afterIters RESOLUTION d init n).trace (t - 1) = some true ∧
        clkSeen (afterIters RESOLUTION d init n).trace t = some false) ↔ t % 10 = 6) := by
  rw [clkSeen_closed RESOLUTION (by decide) d init n t ht hn,
    clkSeen_closed RESOLUTION (by decide) d init n (t - 1) (by omega) hn]
  simp only [Option.some.injEq, decide_eq_true_eq, decide_eq_false_iff_not, RESOLUTION]
  constructor <;> constructor <;> intro h <;> omega

/-- Witness of C3: the rising edge at time 11 of a run of 20 iterations. -/
theorem clock_edges_witness :
    1 ≤ 11 ∧ 11 < 20 ∧ 20 ≤ UINT64_SIZE ∧
    (((clkSeen (afterIters RESOLUTION idleDut () 20).trace (11 - 1) = some false ∧
        clkSeen (afterIters RESOLUTION idleDut () 20).trace 11 = some true) ↔ 11 % 10 = 1) ∧
    ((clkSeen (afterIters RESOLUTION idleDut () 20).trace (11 - 1) = some true ∧
        clkSeen (afterIters RESOLUTION idleDut () 20).trace 11 = some false) ↔ 11 % 10 = 6)) :=
  ⟨by decide, by decide, by decide,
    clock_edges idleDut () 20 11 (by decide) (by decide) (by decide)⟩

/-- C4: evaluation `k` (the `k + 1`-th of a run, `k` within the 64-bit range of the
counter) is made with the counter reading `k`, after the three rules have been applied
for time `k` and before the increment: the call recorded in the trace and the call that
advances the model both carry the pair computed for `k` and the time `k`, and only
the state after the call has the counter at `k + 1` (on 64 bits). -/
theorem eval_sees_stimulus_of_its_time {σ : Type} (d : Dut σ) (init : σ) (n k : Nat)
    (hk : k < n) (hr : k < UINT64_SIZE) :
    (afterIters RESOLUTION d init n).trace[k]? =
        some (Event.eval (stimulus RESOLUTION k).1 (stimulus RESOLUTION k).2 k) ∧
      (afterIters RESOLUTION d init k).main_time = k ∧
      (afterIters RESOLUTION d init (k + 1)).dut =
        d.eval (stimulus RESOLUTION k).1 (stimulus RESOLUTION k).2 k
          (afterIters RESOLUTION d init k).dut ∧
      (afterIters RESOLUTION d init (k + 1)).main_time = (k + 1) % UINT64_SIZE := by
  refine ⟨?_, main_time_afterIters_lt RESOLUTION d init k hr, ?_,
    main_time_afterIters RESOLUTION d init (k + 1)⟩
  · rw [trace_getElem_afterIters RESOLUTION d init n k hk,
      rstn_gen_eq_stimulus RESOLUTION d init k hr, clk_gen_eq_stimulus RESOLUTION d init k hr,
      Nat.mod_eq_of_lt hr]
  · rw [dut_afterIters_succ, rstn_gen_eq_stimulus RESOLUTION d init k hr,
      clk_gen_eq_stimulus RESOLUTION d init k hr, main_time_afterIters_lt RESOLUTION d init k hr]

/-- Witness of C4: the second evaluation of a run of 3 iterations sees the rising edge
of time 1 with the counter at 1. -/
theorem eval_sees_stimulus_of_its_time_witness :
    1 < 3 ∧ 1 < UINT64_SIZE ∧
    (afterIters RESOLUTION (stubDut 5) 0 3).trace[1]? = some (Event.eval false true 1) ∧
    stimulus RESOLUTION 0 = (false, false) ∧ stimulus RESOLUTION 1 = (false, true) :=
  ⟨by decide, by decide,
    (eval_sees_stimulus_of_its_time (stubDut 5) 0 3 1 (by decide) (by decide)).1,
    by decide, by decide⟩

/-- C5: for a model whose completion flag is first seen set after exactly `K`
evaluations (at entry when `K = 0`), `main` returns as soon as the fuel exceeds `K`
and not before; the calls it has made are `K` evaluations followed by one `final` and
the deletion, and the counter holds `K` on 64 bits, that is `K` itself when `K < 2^64`. -/
theorem main_terminates_after_K_evals {σ : Type} (d : Dut σ) (init : σ) (K : Nat)
    (hrun : ∀ j, j < K → d.gotFinish (afterIters RESOLUTION d init j).dut = false)
    (hfin : d.gotFinish (afterIters RESOLUTION d init K).dut = true) :
    (∀ fuel, main d init fuel =
      if K < fuel then some (shutdown d (afterIters RESOLUTION d init K)) else none) ∧
    (shutdown d (afterIters RESOLUTION d init K)).trace =
      (List.range K).map (fun k => Event.eval (afterIters RESOLUTION d init (k + 1)).rstn_gen
        (afterIters RESOLUTION d init (k + 1)).clk_gen (k % UINT64_SIZE)) ++
        [Event.final, Event.delete] ∧
    (shutdown d (afterIters RESOLUTION d init K)).main_time = K % UINT64_SIZE ∧
    (K < UINT64_SIZE → (shutdown d (afterIters RESOLUTION d init K)).main_time = K) ∧
    (shutdown d (afterIters RESOLUTION d init K)).dut =
      d.final (afterIters RESOLUTION d init K).dut := by
  refine ⟨?_, ?_, ?_, ?_, rfl⟩
  · intro fuel
    unfold main mainWith
    rw [whileLoop_eq RESOLUTION d fuel K (start init) hrun hfin]
    by_cases hK : K < fuel
    · simp only [hK, if_true, Option.map_some']
      rfl
    · simp only [hK, if_false, Option.map_none']
  · show (afterIters RESOLUTION d init K).trace ++ _ = _
    rw [trace_afterIters_eq_map]
  · exact main_time_afterIters RESOLUTION d init K
  · intro hK
    exact main_time_afterIters_lt RESOLUTION d init K hK

/-- Witness of C5: the stub that finishes after 3 evaluations. -/
theorem main_terminates_after_K_evals_witness :
    (∀ j, j < 3 → (stubDut 3).gotFinish (afterIters RESOLUTION (stubDut 3) 0 j).dut = false) ∧
    (stubDut 3).gotFinish (afterIters RESOLUTION (stubDut 3) 0 3).dut = true ∧
    (∀ fuel, main (stubDut 3) 0 fuel =
      if 3 < fuel then some (shutdown (stubDut 3) (afterIters RESOLUTION (stubDut 3) 0 3))
      else none) ∧
    (shutdown (stubDut 3) (afterIters RESOLUTION (stubDut 3) 0 3)).trace =
      [Event.eval false false 0, Event.eval false true 1, Event.eval false true 2,
        Event.final, Event.delete] ∧
    (shutdown (stubDut 3) (afterIters RESOLUTION (stubDut 3) 0 3)).main_time = 3 :=
  ⟨by decide, by decide,
    (main_terminates_after_K_evals (stubDut 3) 0 3 (by decide) (by decide)).1,
    by decide, by decide⟩

/-- C6: for any two models (of any state types, from any initial states) driven with the
same period, evaluation `t` is the same call in both runs whenever both reach it: same
reset-release value, same clock value, same time.  Within the 64-bit range of the
counter the pair is the one the rules compute for `t`, a function of `t` alone. -/
theorem stimulus_independent_of_dut {σ₁ σ₂ : Type} (P : Nat) (d₁ : Dut σ₁) (d₂ : Dut σ₂)
    (init₁ : σ₁) (init₂ : σ₂) (n₁ n₂ t : Nat) (h₁ : t < n₁) (h₂ : t < n₂) :
    (afterIters P d₁ init₁ n₁).trace[t]? = (afterIters P d₂ init₂ n₂).trace[t]? ∧
    rstnSeen (afterIters P d₁ init₁ n₁).trace t = rstnSeen (afterIters P d₂ init₂ n₂).trace t ∧
    clkSeen (afterIters P d₁ init₁ n₁).trace t = clkSeen (afterIters P d₂ init₂ n₂).trace t ∧
    (rstnSeen (afterIters P d₁ init₁ n₁).trace t).isSome = true ∧
    (clkSeen (afterIters P d₁ init₁ n₁).trace t).isSome = true ∧
    (t < UINT64_SIZE →
      rstnSeen (afterIters P d₁ init₁ n₁).trace t = some (stimulus P t).1 ∧
      clkSeen (afterIters P d₁ init₁ n₁).trace t = some (stimulus P t).2) := by
  obtain ⟨e1, e2⟩ := driver_independent P d₁ d₂ init₁ init₂ (t + 1)
  refine ⟨?_, ?_, ?_, ?_, ?_, ?_⟩
  · rw [trace_getElem_afterIters P d₁ init₁ n₁ t h₁, trace_getElem_afterIters P d₂ init₂ n₂ t h₂,
      e1, e2]
  · rw [rstnSeen_afterIters P d₁ init₁ n₁ t h₁, rstnSeen_afterIters P d₂ init₂ n₂ t h₂, e1]
  · rw [clkSeen_afterIters P d₁ init₁ n₁ t h₁, clkSeen_afterIters P d₂ init₂ n₂ t h₂, e2]
  · rw [rstnSeen_afterIters P d₁ init₁ n₁ t h₁]; rfl
  · rw [clkSeen_afterIters P d₁ init₁ n₁ t h₁]; rfl
  · intro hr
    rw [rstnSeen_afterIters P d₁ init₁ n₁ t h₁, clkSeen_afterIters P d₁ init₁ n₁ t h₁,
      rstn_gen_eq_stimulus P d₁ init₁ t hr, clk_gen_eq_stimulus P d₁ init₁ t hr]
    exact ⟨rfl, rfl⟩

/-- Witness of C6: a counting stub run for 70 iterations and a toggling model run for
64 iterations see the same call at time 61. -/
theorem stimulus_independent_of_dut_witness :
    61 < 70 ∧ 61 < 64 ∧
    (afterIters RESOLUTION (stubDut 100) 0 70).trace[61]? =
      (afterIters RESOLUTION (toggleDut 90) (false, false) 64).trace[61]? ∧
    (afterIters RESOLUTION (stubDut 100) 0 70).dut = 70 ∧
    (afterIters RESOLUTION (toggleDut 90) (false, false) 64).dut = (true, false) :=
  ⟨by decide, by decide,
    (stimulus_independent_of_dut RESOLUTION (stubDut 100) (toggleDut 90) 0 (false, false)
      70 64 61 (by decide) (by decide)).1,
    by decide, by decide⟩

/-- C7: the counter is 0 on entry; at the head of the loop after `n` completed
iterations it equals `n`, for every `n < 2^64`; an iteration whose result still fits
adds exactly 1; it does not decrease over the first `2^64 - 1` iterations, and the
shutdown sequence leaves it unchanged. -/
theorem main_time_counts_iterations {σ : Type} (d : Dut σ) (init : σ) (n : Nat)
    (hn : n < UINT64_SIZE) :
    (start init).main_time = 0 ∧
    (afterIters RESOLUTION d init n).main_time = n ∧
    (n + 1 < UINT64_SIZE →
      (loopBody RESOLUTION d (afterIters RESOLUTION d init n)).main_time =
        (afterIters RESOLUTION d init n).main_time + 1) ∧
    (∀ m, m ≤ n →
      (afterIters RESOLUTION d init m).main_time ≤ (afterIters RESOLUTION d init n).main_time) ∧
    (shutdown d (afterIters RESOLUTION d init n)).main_time =
      (afterIters RESOLUTION d init n).main_time := by
  refine ⟨rfl, main_time_afterIters_lt RESOLUTION d init n hn, ?_, ?_, rfl⟩
  · intro h1
    rw [← afterIters_succ, main_time_afterIters_lt RESOLUTION d init (n + 1) h1,
      main_time_afterIters_lt RESOLUTION d init n hn]
  · intro m hm
    rw [main_time_afterIters_lt RESOLUTION d init n hn,
      main_time_afterIters_lt RESOLUTION d init m (by omega)]
    exact hm

/-- Witness of C7: the counter after 25 iterations. -/
theorem main_time_counts_iterations_witness :
    25 < UINT64_SIZE ∧ (afterIters RESOLUTION idleDut () 25).main_time = 25 :=
  ⟨by decide, (main_time_counts_iterations idleDut () 25 (by decide)).2.1⟩

/-- C8, as the code has it: in a run that reaches the release (at least 61 evaluations)
the evaluations that see the reset-release line still false are those of times 0 to 60,
so their number is `6 * RESOLUTION + 1 = 61`; a shorter run sees it false throughout. -/
theorem reset_held_for_61_evals {σ : Type} (d : Dut σ) (init : σ) (n : Nat) :
    (61 ≤ n → resetHeldCalls (afterIters RESOLUTION d init n).trace = 6 * RESOLUTION + 1) ∧
    (n ≤ 61 → resetHeldCalls (afterIters RESOLUTION d init n).trace = n) := by
  rw [resetHeldCalls_afterIters, Nat.min_def]
  unfold RESOLUTION
  constructor <;> intro h <;> split <;> omega

/-- Witness of C8 as amended: a run of 100 iterations. -/
theorem reset_held_for_61_evals_witness :
    61 ≤ 100 ∧ resetHeldCalls (afterIters RESOLUTION idleDut () 100).trace = 61 :=
  ⟨by decide, (reset_held_for_61_evals idleDut () 100).1 (by decide)⟩

set_option maxRecDepth 100000 in
/-- Counterexample to C8 as stated: the run of `main` against the stub that finishes
after 100 evaluations reaches the release, and the number of its evaluations that see
the reset-release line false is 61, which is neither `6 * RESOLUTION` nor a multiple
of `RESOLUTION`. -/
theorem reset_held_not_multiple_of_period :
    (main (stubDut 100) 0 101).map (fun s => resetHeldCalls s.trace) = some 61 ∧
    (main (stubDut 100) 0 101).map (fun s => rstnSeen s.trace 61) = some (some true) ∧
    61 ≠ 6 * RESOLUTION ∧ ¬ (RESOLUTION ∣ 61) := by
  refine ⟨?_, ?_, by decide, by decide⟩ <;> decide

/-- C9: with `RESOLUTION = 10` and the clock 0 on entry, for every time `t` of the 64-bit
counter reached by a run the clock seen by the evaluation for `t` is true exactly when
`1 ≤ t mod 10 ≤ 5`; the value seen 10 time units later is the same, from `t = 0` on;
and of any 10 consecutive evaluations exactly 5 see the clock high. -/
theorem clock_closed_form {σ : Type} (d : Dut σ) (init : σ) (n t : Nat) (ht : t < n)
    (hn : n ≤ UINT64_SIZE) :
    (clkSeen (afterIters RESOLUTION d init n).trace t = some true ↔
      (1 ≤ t % 10 ∧ t % 10 ≤ 5)) ∧
    (clkSeen (afterIters RESOLUTION d init n).trace t = some false ↔
      ¬ (1 ≤ t % 10 ∧ t % 10 ≤ 5)) ∧
    (t + 10 < n →
      clkSeen (afterIters RESOLUTION d init n).trace (t + 10) =
        clkSeen (afterIters RESOLUTION d init n).trace t) ∧
    (t + 10 ≤ n → highCount (afterIters RESOLUTION d init n).trace t 10 = 5) := by
  have h := clkSeen_closed RESOLUTION (by decide) d init n t ht hn
  refine ⟨?_, ?_, ?_, ?_⟩
  · rw [h]
    simp [RESOLUTION]
  · rw [h]
    simp [RESOLUTION]
  · intro h10
    rw [h, clkSeen_closed RESOLUTION (by decide) d init n (t + 10) h10 hn]
    simp [RESOLUTION]
  · intro h10
    exact highCount_afterIters RESOLUTION (by decide) d init n t h10 hn

/-- Witness of C9: the window of 10 evaluations starting at time 7 in a run of 30. -/
theorem clock_closed_form_witness :
    7 < 30 ∧ 30 ≤ UINT64_SIZE ∧
    highCount (afterIters RESOLUTION idleDut () 30).trace 7 10 = 5 ∧
    clkSeen (afterIters RESOLUTION idleDut () 30).trace 17 =
      clkSeen (afterIters RESOLUTION idleDut () 30).trace 7 :=
  ⟨by decide, by decide,
    (clock_closed_form idleDut () 30 7 (by decide) (by decide)).2.2.2 (by decide),
    (clock_closed_form idleDut () 30 7 (by decide) (by decide)).2.2.1 (by decide)⟩

/-- C10: for the loop run with a period `P ≥ 3` in place of `RESOLUTION`, for every time
`t` of the 64-bit counter reached by a run the clock seen by the evaluation for `t` is
true exactly when `1 ≤ t mod P ≤ P / 2`; of any `P` consecutive evaluations exactly
`P / 2` see it high, which is half of `P` when `P` is even and less than half when
`P` is odd. -/
theorem duty_cycle_general_period {σ : Type} (P : Nat) (hP : 3 ≤ P) (d : Dut σ) (init : σ)
    (n t : Nat) (ht : t < n) (hn : n ≤ UINT64_SIZE) :
    (clkSeen (afterIters P d init n).trace t = some true ↔ (1 ≤ t % P ∧ t % P ≤ P / 2)) ∧
    (clkSeen (afterIters P d init n).trace t = some false ↔ ¬ (1 ≤ t % P ∧ t % P ≤ P / 2)) ∧
    (t + P ≤ n →
      highCount (afterIters P d init n).trace t P = P / 2 ∧
      (P % 2 = 0 → 2 * highCount (afterIters P d init n).trace t P = P) ∧
      (P % 2 = 1 → 2 * highCount (afterIters P d init n).trace t P < P)) := by
  have h := clkSeen_closed P hP d init n t ht hn
  refine ⟨?_, ?_, ?_⟩
  · rw [h]
    simp
  · rw [h]
    simp
  · intro hw
    rw [highCount_afterIters P hP d init n t hw hn]
    refine ⟨rfl, ?_, ?_⟩ <;> intro hpar <;> omega

/-- Witness of C10: period 7, the window of 7 evaluations starting at time 4 in a run
of 20 has 3 evaluations with the clock high. -/
theorem duty_cycle_general_period_witness :
    3 ≤ 7 ∧ 4 < 20 ∧ 20 ≤ UINT64_SIZE ∧ 4 + 7 ≤ 20 ∧
    highCount (afterIters 7 idleDut () 20).trace 4 7 = 3 ∧
    2 * highCount (afterIters 7 idleDut () 20).trace 4 7 < 7 ∧
    (clkSeen (afterIters 7 idleDut () 20).trace 4 = some false ↔ ¬ (1 ≤ 4 % 7 ∧ 4 % 7 ≤ 7 / 2)) :=
  ⟨by decide, by decide, by decide, by decide,
    ((duty_cycle_general_period 7 (by decide) idleDut () 20 4 (by decide) (by decide)).2.2
      (by decide)).1,
    ((duty_cycle_general_period 7 (by decide) idleDut () 20 4 (by decide) (by decide)).2.2
      (by decide)).2.2 (by decide),
    (duty_cycle_general_period 7 (by decide) idleDut () 20 4 (by decide) (by decide)).2.1⟩

/-- C11, as the code has it: for the loop run with a period `P ≥ 3` in place of
`RESOLUTION`, every window of `P` consecutive evaluations that starts at a time
`s ≥ 1` and lies within the range of the 64-bit counter has exactly one rising and
exactly one falling clock edge. -/
theorem one_cycle_per_period {σ : Type} (P : Nat) (hP : 3 ≤ P) (d : Dut σ) (init : σ)
    (n s : Nat) (h1 : 1 ≤ s) (hs : s + P ≤ n) (hn : n ≤ UINT64_SIZE) :
    risingCount (afterIters P d init n).trace s P = 1 ∧
    fallingCount (afterIters P d init n).trace s P = 1 := by
  constructor
  · unfold risingCount
    rw [count_congr_lt _ (fun i => (s + i) % P = 1) P (fun k hk =>
      (edges_seen P hP d init n (s + k) (by omega) (by omega) hn).1)]
    exact count_residue_window P 1 (by omega) s
  · unfold fallingCount
    rw [count_congr_lt _ (fun i => (s + i) % P = P / 2 + 1) P (fun k hk =>
      (edges_seen P hP d init n (s + k) (by omega) (by omega) hn).2)]
    exact count_residue_window P (P / 2 + 1) (by omega) s

/-- Witness of C11 as amended: period 3, the window of times 4, 5, 6 in a run of 12. -/
theorem one_cycle_per_period_witness :
    3 ≤ 3 ∧ 1 ≤ 4 ∧ 4 + 3 ≤ 12 ∧ 12 ≤ UINT64_SIZE ∧
    risingCount (afterIters 3 idleDut () 12).trace 4 3 = 1 ∧
    fallingCount (afterIters 3 idleDut () 12).trace 4 3 = 1 :=
  ⟨by decide, by decide, by decide, by decide,
    one_cycle_per_period 3 (by decide) idleDut () 12 4 (by decide) (by decide) (by decide)⟩

/-- Counterexample to C11 as stated: with period 1 the clock never rises, so the window
made of time 1 has no rising edge; with period 2 the clock rises at time 1 and never
falls, so the window of times 1 and 2 has no falling edge and the window of times 2
and 3 has no edge at all. -/
theorem no_cycle_for_periods_1_and_2 :
    0 < 1 ∧ risingCount (afterIters 1 idleDut () 20).trace 1 1 = 0 ∧
    0 < 2 ∧ risingCount (afterIters 2 idleDut () 20).trace 1 2 = 1 ∧
    fallingCount (afterIters 2 idleDut () 20).trace 1 2 = 0 ∧
    risingCount (afterIters 2 idleDut () 20).trace 2 2 = 0 ∧
    fallingCount (afterIters 2 idleDut () 20).trace 2 2 = 0 ∧
    (∀ t, t < 20 → clkSeen (afterIters 1 idleDut () 20).trace t = some false) ∧
    (∀ t, t < 20 → clkSeen (afterIters 2 idleDut () 20).trace t = some (decide (1 ≤ t))) := by
  decide

/-- C12: with `RESOLUTION = 10`, in a run that reaches time 61 the evaluation for time
61 is the first one that sees the reset-release line true, and it is also one that
sees the clock true while the evaluation before saw it false, so both lines change at
that evaluation; the rising clock edges seen while the reset-release line is still
false are those of times 1, 11, 21, 31, 41 and 51, six in all. -/
theorem release_on_rising_edge {σ : Type} (d : Dut σ) (init : σ) (n : Nat) (h62 : 62 ≤ n)
    (hn : n ≤ UINT64_SIZE) :
    rstnSeen (afterIters RESOLUTION d init n).trace 61 = some true ∧
    timeSeen (afterIters RESOLUTION d init n).trace 61 = some 61 ∧
    (∀ t, t < 61 → rstnSeen (afterIters RESOLUTION d init n).trace t = some false) ∧
    clkSeen (afterIters RESOLUTION d init n).trace 60 = some false ∧
    clkSeen (afterIters RESOLUTION d init n).trace 61 = some true ∧
    (∀ t, t < n →
      ((1 ≤ t ∧ clkSeen (afterIters RESOLUTION d init n).trace (t - 1) = some false ∧
          clkSeen (afterIters RESOLUTION d init n).trace t = some true ∧
          rstnSeen (afterIters RESOLUTION d init n).trace t = some false) ↔
        (t = 1 ∨ t = 11 ∨ t = 21 ∨ t = 31 ∨ t = 41 ∨ t = 51))) ∧
    risingInReset (afterIters RESOLUTION d init n).trace = 6 := by
  have hU : (61 : Nat) < UINT64_SIZE := by decide
  have hedge : ∀ t, t < n →
      ((1 ≤ t ∧ clkSeen (afterIters RESOLUTION d init n).trace (t - 1) = some false ∧
          clkSeen (afterIters RESOLUTION d init n).trace t = some true ∧
          rstnSeen (afterIters RESOLUTION d init n).trace t = some false) ↔
        (t % 10 = 1 ∧ t ≤ 60)) := by
    intro t ht
    rw [rstnSeen_closed d init n t ht]
    simp only [Option.some.injEq, decide_eq_false_iff_not]
    constructor
    · rintro ⟨h1, hf, hr, hrst⟩
      have he := (edges_seen RESOLUTION (by decide) d init n t h1 ht hn).1.1 ⟨hf, hr⟩
      unfold RESOLUTION at he
      omega
    · rintro ⟨hm, hle⟩
      have h1 : 1 ≤ t := by omega
      have he := (edges_seen RESOLUTION (by decide) d init n t h1 ht hn).1.2 hm
      exact ⟨h1, he.1, he.2, by omega⟩
  refine ⟨?_, ?_, ?_, ?_, ?_, ?_, ?_⟩
  · rw [rstnSeen_closed d init n 61 (by omega)]; rfl
  · rw [timeSeen_afterIters RESOLUTION d init n 61 (by omega), Nat.mod_eq_of_lt hU]
  · intro t ht
    rw [rstnSeen_closed d init n t (by omega)]
    simp only [Option.some.injEq, decide_eq_false_iff_not]
    omega
  · rw [clkSeen_closed RESOLUTION (by decide) d init n 60 (by omega) hn]; rfl
  · rw [clkSeen_closed RESOLUTION (by decide) d init n 61 (by omega) hn]; rfl
  · intro t ht
    rw [hedge t ht]
    constructor <;> intro h <;> omega
  · unfold risingInReset
    rw [trace_length_afterIters, count_congr_lt _ (fun t => t % 10 = 1 ∧ t ≤ 60) n hedge]
    exact count_rising_under_reset n (by omega)

/-- Witness of C12: a run of 70 iterations. -/
theorem release_on_rising_edge_witness :
    62 ≤ 70 ∧ 70 ≤ UINT64_SIZE ∧
    rstnSeen (afterIters RESOLUTION idleDut () 70).trace 60 = some false ∧
    rstnSeen (afterIters RESOLUTION idleDut () 70).trace 61 = some true ∧
    clkSeen (afterIters RESOLUTION idleDut () 70).trace 60 = some false ∧
    clkSeen (afterIters RESOLUTION idleDut () 70).trace 61 = some true ∧
    risingInReset (afterIters RESOLUTION idleDut () 70).trace = 6 :=
  ⟨by decide, by decide,
    (release_on_rising_edge idleDut () 70 (by decide) (by decide)).2.2.1 60 (by decide),
    (release_on_rising_edge idleDut () 70 (by decide) (by decide)).1,
    (release_on_rising_edge idleDut () 70 (by decide) (by decide)).2.2.2.1,
    (release_on_rising_edge idleDut () 70 (by decide) (by decide)).2.2.2.2.1,
    (release_on_rising_edge idleDut () 70 (by decide) (by decide)).2.2.2.2.2.2⟩

end SimMain
